import Mathlib

/-!
Shallow embedding of the krakatoa instanced-mesh model registry
(src/model/model.rs, src/model/vertex.rs, src/model/instance.rs,
src/model/mod.rs, src/buffer.rs).

Conventions of the embedding:
* `usize` and `u32` are modelled as `Nat` (no operation here comes close to
  overflow; the one`usize` subtraction that can underflow,
  `self.instances.len() - 1` in `Model.remove`, is modelled explicitly:
  underflow panics in a debug build and indexes out of bounds in a release
  build, so the embedding yields a panic in that case).
* `f32` values are idealised as real numbers.
* `std::collections::HashMap<usize, usize>` is modelled as an association
  list with first-match lookup; `insert` replaces any previous binding of
  the key, `remove` erases it.  Only lookup/insert/remove are used by the
  source.
* Rust panics (out-of-bounds `Vec` indexing, `Option::unwrap` on `None`,
  underflow of `usize` subtraction) are modelled by `Option`/`OpOut.panic`.
* `&mut self` methods are modelled as pure functions returning the new
  state; the early-return error paths of the source return the unchanged
  state, which the embedding records in `OpOut.err`.
-/

namespace Krakatoa

/-- Association-list model of `std::collections::HashMap` (first match wins). -/
def assocFind {κ ν : Type} [DecidableEq κ] : List (κ × ν) → κ → Option ν
  | [], _ => none
  | (k, v) :: rest, k' => if k = k' then some v else assocFind rest k'

/-- Model of `HashMap::remove`: erase every binding of the key. -/
def assocErase {κ ν : Type} [DecidableEq κ] (m : List (κ × ν)) (k : κ) : List (κ × ν) :=
  m.filter (fun p => p.1 ≠ k)

/-- Model of `HashMap::insert`: bind the key, replacing any previous binding. -/
def assocInsert {κ ν : Type} [DecidableEq κ] (m : List (κ × ν)) (k : κ) (v : ν) :
    List (κ × ν) :=
  (k, v) :: assocErase m k

/-- The `handle_to_index: HashMap<usize, usize>` field. -/
abbrev HMap := List (Nat × Nat)

/-- Model of `Vec::swap(i, j)`: reads both elements (panicking when out of bounds,
modelled by `none`), then writes them back exchanged. -/
def vecSwap {α : Type} (l : List α) (i j : Nat) : Option (List α) :=
  match l.get? i, l.get? j with
  | some vi, some vj => some ((l.set i vj).set j vi)
  | _, _ => none

/-- Model of the `src/buffer.rs` `Buffer`: the GPU-side handles (`vk::Buffer`, the device
memory and its requirements) are opaque to every claim, so they are modelled
as plain identifiers. -/
structure Buffer where
  buffer : Nat
  size_in_bytes : Nat
  usage : Nat
  memory : Nat
deriving DecidableEq

/-- The error type `InvalidHandle` from `src/model/mod.rs`. -/
inductive InvalidHandle : Type where
  | mk : InvalidHandle
deriving DecidableEq

/-- Model of `Result<α, InvalidHandle>` for the state-free query `in_visible`. -/
inductive RegResult (α : Type) : Type where
  | ok : α → RegResult α
  | invalidHandle : RegResult α
deriving DecidableEq

/-- The registry `Model<V, I>` from `src/model/model.rs`. -/
structure Model (V I : Type) where
  vertex_data : List V
  index_data : List Nat
  handle_to_index : HMap
  handles : List Nat
  instances : List I
  first_invisible : Nat
  next_handle : Nat
  vertex_buffer : Option Buffer
  index_buffer : Option Buffer
  instance_buffer : Option Buffer
deriving DecidableEq

/-- Outcome of a `&mut self` registry method: success with a return value and
the new state, `Err(InvalidHandle)` with the (unchanged) state, or a panic. -/
inductive OpOut (α V I : Type) : Type where
  | ok : α → Model V I → OpOut α V I
  | err : Model V I → OpOut α V I
  | panic : OpOut α V I
deriving DecidableEq

namespace Model

variable {V I : Type}

/-- Model of `Model::get`. -/
def get (m : Model V I) (handle : Nat) : Option I :=
  match assocFind m.handle_to_index handle with
  | some index => m.instances.get? index
  | none => none

/-- Model of `Model::get_mut`; the mutable borrow is modelled by the instance it
points at, so observationally this coincides with `get`. -/
def get_mut (m : Model V I) (handle : Nat) : Option I :=
  match assocFind m.handle_to_index handle with
  | some index => m.instances.get? index
  | none => none

/-- Model of `Model::swap_by_handle`.  Note the source inserts the map entries with
the *indices* as keys: `insert(index1, handle1); insert(index2, handle2)`. -/
def swap_by_handle (m : Model V I) (handle1 handle2 : Nat) : OpOut Unit V I :=
  if handle1 = handle2 then .ok () m
  else
    match assocFind m.handle_to_index handle1, assocFind m.handle_to_index handle2 with
    | some index1, some index2 =>
      match vecSwap m.handles index1 index2, vecSwap m.instances index1 index2 with
      | some handles, some instances =>
        .ok () { m with
          handles := handles
          instances := instances
          handle_to_index :=
            assocInsert (assocInsert m.handle_to_index index1 handle1) index2 handle2 }
      | _, _ => .panic
    | _, _ => .err m

/-- Model of `Model::swap_by_index`.  The source reads `handles[index1]`,
`handles[index2]` (panicking when out of bounds), swaps both vectors, then
inserts `(index1, handle2)` and `(index2, handle1)` into the map. -/
def swap_by_index (m : Model V I) (index1 index2 : Nat) : Option (Model V I) :=
  if index1 = index2 then some m
  else
    match m.handles.get? index1, m.handles.get? index2 with
    | some handle1, some handle2 =>
      match vecSwap m.handles index1 index2, vecSwap m.instances index1 index2 with
      | some handles, some instances =>
        some { m with
          handles := handles
          instances := instances
          handle_to_index :=
            assocInsert (assocInsert m.handle_to_index index1 handle2) index2 handle1 }
      | _, _ => none
    | _, _ => none

/-- Model of `Model::in_visible` (the `is_visible` query of the spec). -/
def in_visible (m : Model V I) (handle : Nat) : RegResult Bool :=
  match assocFind m.handle_to_index handle with
  | some index => .ok (decide (index < m.first_invisible))
  | none => .invalidHandle

/-- Model of `Model::make_visible`. -/
def make_visible (m : Model V I) (handle : Nat) : OpOut Unit V I :=
  match assocFind m.handle_to_index handle with
  | some index =>
    if index < m.first_invisible then .ok () m
    else
      match swap_by_index m index m.first_invisible with
      | some m1 => .ok () { m1 with first_invisible := m1.first_invisible + 1 }
      | none => .panic
  | none => .err m

/-- Model of `Model::make_invisible`.  The guard `index >= first_invisible` makes the
`first_invisible - 1` in the swap safe from underflow. -/
def make_invisible (m : Model V I) (handle : Nat) : OpOut Unit V I :=
  match assocFind m.handle_to_index handle with
  | some index =>
    if m.first_invisible ≤ index then .ok () m
    else
      match swap_by_index m index (m.first_invisible - 1) with
      | some m1 => .ok () { m1 with first_invisible := m1.first_invisible - 1 }
      | none => .panic
  | none => .err m

/-- Model of `Model::insert`: returns the fresh handle and the new state. -/
def insert (m : Model V I) (element : I) : Nat × Model V I :=
  let handle := m.next_handle
  let index := m.instances.length
  (handle,
    { m with
      next_handle := handle + 1
      instances := m.instances ++ [element]
      handles := m.handles ++ [handle]
      handle_to_index := assocInsert m.handle_to_index handle index })

/-- Model of `Model::insert_visibly`: `insert` then `make_visible`, the
`Result` of which is discarded with `.ok()`. -/
def insert_visibly (m : Model V I) (element : I) : Option (Nat × Model V I) :=
  let p := insert m element
  match make_visible p.2 p.1 with
  | .ok _ m1 => some (p.1, m1)
  | .err m1 => some (p.1, m1)
  | .panic => none

/-- Model of `Model::remove`.  `self.instances.len() - 1` on an empty vector is an
underflow and the subsequent machinery panics on either build profile, so
that case is a panic; `pop().unwrap()` on an empty vector likewise. -/
def remove (m : Model V I) (handle : Nat) : OpOut I V I :=
  match assocFind m.handle_to_index handle with
  | some index =>
    let step1 : Option (Model V I) :=
      if index < m.first_invisible then
        (swap_by_index m index (m.first_invisible - 1)).map
          (fun m1 => { m1 with first_invisible := m1.first_invisible - 1 })
      else some m
    match step1 with
    | none => .panic
    | some m1 =>
      if m1.instances.length = 0 then .panic
      else
        match swap_by_index m1 m1.first_invisible (m1.instances.length - 1) with
        | none => .panic
        | some m2 =>
          match m2.instances.getLast? with
          | none => .panic
          | some popped =>
            .ok popped
              { m2 with
                handles := m2.handles.dropLast
                handle_to_index := assocErase m2.handle_to_index handle
                instances := m2.instances.dropLast }
  | none => .err m

end Model

/-- The registry part of a freshly constructed model (`cube`, `icosahedron`
and `sphere` all initialise these fields this way). -/
def emptyModel (V I : Type) : Model V I :=
  { vertex_data := []
    index_data := []
    handle_to_index := []
    handles := []
    instances := []
    first_invisible := 0
    next_handle := 0
    vertex_buffer := none
    index_buffer := none
    instance_buffer := none }

/-- A public registry operation, for quantifying over operation sequences. -/
inductive Op (I : Type) : Type where
  | insert (element : I)
  | insertVisibly (element : I)
  | remove (handle : Nat)
  | makeVisible (handle : Nat)
  | makeInvisible (handle : Nat)
  | swapByHandle (handle1 handle2 : Nat)

/-- Run one public operation.  `InvalidHandle` errors are recoverable (the
state continues unchanged); a panic aborts the run (`none`). -/
def step {V I : Type} (m : Model V I) : Op I → Option (Model V I)
  | .insert e => some (m.insert e).2
  | .insertVisibly e => (m.insert_visibly e).map (·.2)
  | .remove h =>
    match m.remove h with
    | .ok _ m1 => some m1
    | .err m1 => some m1
    | .panic => none
  | .makeVisible h =>
    match m.make_visible h with
    | .ok _ m1 => some m1
    | .err m1 => some m1
    | .panic => none
  | .makeInvisible h =>
    match m.make_invisible h with
    | .ok _ m1 => some m1
    | .err m1 => some m1
    | .panic => none
  | .swapByHandle h1 h2 =>
    match m.swap_by_handle h1 h2 with
    | .ok _ m1 => some m1
    | .err m1 => some m1
    | .panic => none

/-- Run a sequence of public operations from a given state. -/
def runOps {V I : Type} (m : Model V I) : List (Op I) → Option (Model V I)
  | [] => some m
  | op :: ops =>
    match step m op with
    | some m1 => runOps m1 ops
    | none => none

/-- Spec invariant 2 / P1: every key of `handle_to_index` points back at
itself through `handles`. -/
def mapArrayConsistent {V I : Type} (m : Model V I) : Prop :=
  ∀ h i, assocFind m.handle_to_index h = some i → m.handles.get? i = some h

/-- The one-instance registry reached by `insert(10)` from empty. -/
def regOne : Model Unit Nat := ((emptyModel Unit Nat).insert 10).2

/-- A model with vertex and instance buffers present, one visible instance,
but no index buffer. -/
def drawNoIdx : Model Unit Nat :=
  { emptyModel Unit Nat with
    vertex_buffer := some ⟨0, 0, 0, 0⟩
    instance_buffer := some ⟨1, 0, 0, 0⟩
    first_invisible := 1 }

/-- The model `drawNoIdx` with an index buffer as well. -/
def drawAll : Model Unit Nat :=
  { drawNoIdx with index_buffer := some ⟨2, 0, 0, 0⟩ }

/-- Well-formedness of the registry: parallel arrays of equal length, a
partition point within bounds, and a map whose entries point back at their
handles.  These are the spec invariants that `remove` relies on. -/
structure WF {V I : Type} (m : Model V I) : Prop where
  len_eq : m.handles.length = m.instances.length
  fi_le : m.first_invisible ≤ m.instances.length
  find_handles : ∀ h i, assocFind m.handle_to_index h = some i → m.handles.get? i = some h

/-- A `[f32; 3]` vector, idealised over the reals. -/
abbrev Vec3 : Type := ℝ × ℝ × ℝ

/-- The vertex record `VertexData` from `src/model/vertex.rs`. -/
structure VertexData where
  position : Vec3
  normal : Vec3

/-- Model of `normalize` from `src/model/vertex.rs`: divide by the euclidean norm. -/
noncomputable def normalize (v : Vec3) : Vec3 :=
  let l := Real.sqrt (v.1 * v.1 + v.2.1 * v.2.1 + v.2.2 * v.2.2)
  (v.1 / l, v.2.1 / l, v.2.2 / l)

/-- Model of `VertexData::midpoint`: component-wise average of position and normal. -/
noncomputable def VertexData.midpoint (a b : VertexData) : VertexData :=
  { position :=
      (0.5 * (a.position.1 + b.position.1),
       0.5 * (a.position.2.1 + b.position.2.1),
       0.5 * (a.position.2.2 + b.position.2.2))
    normal :=
      (0.5 * (a.normal.1 + b.normal.1),
       0.5 * (a.normal.2.1 + b.normal.2.1),
       0.5 * (a.normal.2.2 + b.normal.2.2)) }

/-- The instance record `InstanceData` from `src/model/instance.rs`; the mesh claims never
inspect its fields. -/
structure InstanceData where
  model_matrix : Fin 4 → Fin 4 → ℝ
  inverse_model_matrix : Fin 4 → Fin 4 → ℝ
  colour : Vec3

/-- The golden ratio `phi = (1 + 5.0.sqrt()) / 2` of `Model::icosahedron`. -/
noncomputable def phi : ℝ := (1 + Real.sqrt 5) / 2

/-- Icosahedron vertex 0. -/
noncomputable def darkgreen_front_top : VertexData :=
  ⟨(phi, -1, 0), normalize (phi, -1, 0)⟩

/-- Icosahedron vertex 1. -/
noncomputable def darkgreen_front_bottom : VertexData :=
  ⟨(phi, 1, 0), normalize (phi, 1, 0)⟩

/-- Icosahedron vertex 2. -/
noncomputable def darkgreen_back_top : VertexData :=
  ⟨(-phi, -1, 0), normalize (-phi, -1, 0)⟩

/-- Icosahedron vertex 3. -/
noncomputable def darkgreen_back_bottom : VertexData :=
  ⟨(-phi, 1, 0), normalize (-phi, 1, 0)⟩

/-- Icosahedron vertex 4. -/
noncomputable def lightgreen_front_right : VertexData :=
  ⟨(1, 0, -phi), normalize (1, 0, -phi)⟩

/-- Icosahedron vertex 5. -/
noncomputable def lightgreen_front_left : VertexData :=
  ⟨(-1, 0, -phi), normalize (-1, 0, -phi)⟩

/-- Icosahedron vertex 6. -/
noncomputable def lightgreen_back_right : VertexData :=
  ⟨(1, 0, phi), normalize (1, 0, phi)⟩

/-- Icosahedron vertex 7. -/
noncomputable def lightgreen_back_left : VertexData :=
  ⟨(-1, 0, phi), normalize (-1, 0, phi)⟩

/-- Icosahedron vertex 8. -/
noncomputable def purple_top_left : VertexData :=
  ⟨(0, -phi, -1), normalize (0, -phi, -1)⟩

/-- Icosahedron vertex 9. -/
noncomputable def purple_top_right : VertexData :=
  ⟨(0, -phi, 1), normalize (0, -phi, 1)⟩

/-- Icosahedron vertex 10. -/
noncomputable def purple_bottom_left : VertexData :=
  ⟨(0, phi, -1), normalize (0, phi, -1)⟩

/-- Icosahedron vertex 11. -/
noncomputable def purple_bottom_right : VertexData :=
  ⟨(0, phi, 1), normalize (0, phi, 1)⟩

/-- Model of `Model::icosahedron`: twelve golden-ratio vertices, twenty triangles. -/
noncomputable def icosahedron : Model VertexData InstanceData :=
  { vertex_data :=
      [darkgreen_front_top, darkgreen_front_bottom, darkgreen_back_top,
       darkgreen_back_bottom, lightgreen_front_right, lightgreen_front_left,
       lightgreen_back_right, lightgreen_back_left, purple_top_left,
       purple_top_right, purple_bottom_left, purple_bottom_right]
    index_data :=
      [0, 9, 8,
       0, 8, 4,
       0, 4, 1,
       0, 1, 6,
       0, 6, 9,
       8, 9, 2,
       8, 2, 5,
       8, 5, 4,
       4, 5, 10,
       4, 10, 1,
       1, 10, 11,
       1, 11, 6,
       2, 3, 5,
       2, 7, 3,
       2, 9, 7,
       5, 3, 10,
       3, 11, 10,
       3, 7, 11,
       6, 7, 9,
       6, 11, 7]
    handle_to_index := []
    handles := []
    instances := []
    first_invisible := 0
    next_handle := 0
    vertex_buffer := none
    index_buffer := none
    instance_buffer := none }

/-- The `midpoints: HashMap<(u32, u32), u32>` cache of `Model::refine`. -/
abbrev MidCache := List ((Nat × Nat) × Nat)

/-- One edge of `refine`'s midpoint handling: look the ordered edge up in
the cache; when absent, append the midpoint vertex and record the fresh
index under both orientations.  The source repeats this block three times
per triangle; the three copies differ only in the order of the push and the
two cache inserts, which does not affect the result. -/
noncomputable def getMid (vd : List VertexData) (cache : MidCache) (x y : Nat)
    (vx vy : VertexData) : Nat × List VertexData × MidCache :=
  match assocFind cache (x, y) with
  | some mxy => (mxy, vd, cache)
  | none =>
    let vertex_xy := VertexData.midpoint vx vy
    let mxy := vd.length
    (mxy, vd ++ [vertex_xy], assocInsert (assocInsert cache (x, y) mxy) (y, x) mxy)

/-- The loop of `Model::refine` over `index_data.chunks(3)`: returns the
grown vertex list and the accumulated `new_indices`.  A trailing chunk of
fewer than three indices panics in the source (`triangle[1]`), modelled by
`none`; so does an out-of-bounds vertex read. -/
noncomputable def refineGo (vd : List VertexData) (cache : MidCache) :
    List Nat → Option (List VertexData × List Nat)
  | [] => some (vd, [])
  | a :: b :: c :: rest =>
    match vd.get? a, vd.get? b, vd.get? c with
    | some vertex_a, some vertex_b, some vertex_c =>
      let pab := getMid vd cache a b vertex_a vertex_b
      let pbc := getMid pab.2.1 pab.2.2 b c vertex_b vertex_c
      let pca := getMid pbc.2.1 pbc.2.2 c a vertex_c vertex_a
      match refineGo pca.2.1 pca.2.2 rest with
      | some p =>
        some (p.1, [pca.1, a, pab.1, pab.1, b, pbc.1, pbc.1, c, pca.1,
                    pab.1, pbc.1, pca.1] ++ p.2)
      | none => none
    | _, _, _ => none
  | _ => none

/-- Model of `Model::refine`. -/
noncomputable def refine (m : Model VertexData InstanceData) :
    Option (Model VertexData InstanceData) :=
  match refineGo m.vertex_data [] m.index_data with
  | some p => some { m with vertex_data := p.1, index_data := p.2 }
  | none => none

/-- The `for _ in 0..refinements { model.refine(); }` loop of `sphere`. -/
noncomputable def refineIter :
    Nat → Model VertexData InstanceData → Option (Model VertexData InstanceData)
  | 0, m => some m
  | n + 1, m =>
    match refine m with
    | some m1 => refineIter n m1
    | none => none

/-- Model of `Model::sphere`: build the icosahedron, run `refinements` refine passes,
then replace every vertex position — and only the position — by its
normalisation. -/
noncomputable def sphere (refinements : Nat) : Option (Model VertexData InstanceData) :=
  match refineIter refinements icosahedron with
  | some m =>
    some { m with vertex_data :=
      m.vertex_data.map (fun v => { v with position := normalize v.position }) }
  | none => none

/-- Canonical unordered form of the edge `(a, b)`. -/
def edgeKey (a b : Nat) : Nat × Nat := (min a b, max a b)

/-- The set of unordered edges of a triangle list (read in chunks of three,
like `refine` does). -/
def edgeFinset : List Nat → Finset (Nat × Nat)
  | a :: b :: c :: rest =>
    insert (edgeKey a b) (insert (edgeKey b c) (insert (edgeKey c a) (edgeFinset rest)))
  | _ => ∅

/-- Squared euclidean norm of a `Vec3`. -/
noncomputable def normSq (v : Vec3) : ℝ := v.1 * v.1 + v.2.1 * v.2.1 + v.2.2 * v.2.2

/-- The midpoint cache knows exactly the unordered edges of `E`. -/
def CacheInv (cache : MidCache) (E : Finset (Nat × Nat)) : Prop :=
  ∀ a b : Nat, (assocFind cache (a, b)).isSome = true ↔ edgeKey a b ∈ E

/-- A one-triangle mesh over three icosahedron vertices, used to witness the
refinement counting theorem. -/
noncomputable def triMesh : Model VertexData InstanceData :=
  { icosahedron with
    vertex_data := [darkgreen_front_top, darkgreen_front_bottom, darkgreen_back_top]
    index_data := [0, 1, 2] }

/-- The index type `vk::IndexType` (only `UINT32` is used by the source). -/
inductive IndexType : Type where
  | uint16
  | uint32
deriving DecidableEq

/-- A GPU command recorded by `Model::draw`. -/
inductive Cmd : Type where
  | bindVertexBuffers (first_binding : Nat) (buffers : List Nat) (offsets : List Nat)
  | bindIndexBuffer (buffer : Nat) (offset : Nat) (index_type : IndexType)
  | drawIndexed (index_count instance_count first_index vertex_offset first_instance : Nat)
deriving DecidableEq

/-- Model of `Model::draw` as the list of commands it records.  `none` models the
panic of `self.index_buffer.as_ref().unwrap()` when the index buffer is
absent while both other buffers are present and `first_invisible > 0` (the
source records the first vertex-buffer bind and then panics; the partial
trace of a panicking call is not observable here). -/
def Model.draw {V I : Type} (m : Model V I) : Option (List Cmd) :=
  match m.vertex_buffer with
  | some vertex_buffer =>
    match m.instance_buffer with
    | some instance_buffer =>
      if 0 < m.first_invisible then
        match m.index_buffer with
        | some index_buffer =>
          some [.bindVertexBuffers 0 [vertex_buffer.buffer] [0],
                .bindIndexBuffer index_buffer.buffer 0 .uint32,
                .bindVertexBuffers 1 [instance_buffer.buffer] [0],
                .drawIndexed m.index_data.length m.first_invisible 0 0 0]
        | none => none
      else some []
    | none => some []
  | none => some []

/-- C1: map-array consistency fails on the code.  After
`insert; insert; swap_by_handle(0, 1)` from an empty registry the source
has swapped `handles` to `[1, 0]` but — because `swap_by_handle` writes the
map entries with the *indices* as keys (`insert(index1, handle1)`,
`insert(index2, handle2)`) — `handle_to_index` still maps `0 ↦ 0` and
`1 ↦ 1`, so `handles[handle_to_index[0]] = 1 ≠ 0`. -/
theorem c1_code_eval :
    ((runOps (emptyModel Unit Nat) [.insert 10, .insert 20, .swapByHandle 0 1]).map
      (fun m => (assocFind m.handle_to_index 0, m.handles.get? 0)) = some (some 0, some 1)) ∧
    ¬ (∀ m : Model Unit Nat,
        runOps (emptyModel Unit Nat) [.insert 10, .insert 20, .swapByHandle 0 1] = some m →
        mapArrayConsistent m) := by
  refine ⟨by decide, fun hyp => ?_⟩
  have h1 := hyp _ rfl 0 0 (by decide)
  exact absurd h1 (by decide)

/-- C2: after a successful `swap_by_handle(0, 1)` on the two handles of a
two-element registry (handle 0 at index 0, handle 1 at index 1) the claim
demands `handle_to_index[0] = 1` and `handle_to_index[1] = 0`; the source
instead executes `handle_to_index.insert(index1, handle1)` and
`insert(index2, handle2)`, leaving `0 ↦ 0` and `1 ↦ 1`. -/
theorem c2_code_eval :
    ((runOps (emptyModel Unit Nat) [.insert 10, .insert 20, .swapByHandle 0 1]).map
      (fun m => (assocFind m.handle_to_index 0, assocFind m.handle_to_index 1))
      = some (some 0, some 1)) ∧
    ¬ (∀ m : Model Unit Nat,
        runOps (emptyModel Unit Nat) [.insert 10, .insert 20, .swapByHandle 0 1] = some m →
        assocFind m.handle_to_index 0 = some 1 ∧ assocFind m.handle_to_index 1 = some 0) := by
  refine ⟨by decide, fun hyp => ?_⟩
  have h1 := (hyp _ rfl).1
  exact absurd h1 (by decide)

/-- C5: `make_visible` is not idempotent on reachable states.  After
`insert; insert; insert; remove(0)` the registry holds handles `[2, 1]`
with map `{2 ↦ 0, 1 ↦ 1}`.  One `make_visible(1)` succeeds but — through
the index-keyed map update of `swap_by_index` — leaves the stale entry
`1 ↦ 2`; the second `make_visible(1)` therefore reads index 2 and panics
indexing `handles` (length 2) out of bounds, instead of being a no-op. -/
theorem c5_code_eval :
    ∃ s s1 : Model Unit Nat,
      runOps (emptyModel Unit Nat) [.insert 10, .insert 20, .insert 30, .remove 0] = some s ∧
      s.make_visible 1 = .ok () s1 ∧
      s1.make_visible 1 = .panic :=
  ⟨_, _, rfl, rfl, by decide⟩

/-- C6: the partition invariant `first_invisible ≤ len` fails on the code.
After `insert ×3; remove(0); make_visible(1); make_visible(0);
make_visible(1)` the stale index-keyed map entries make the last two calls
hit the `index == first_invisible` no-swap path and increment
`first_invisible` twice more, ending with `first_invisible = 3` while only
2 instances remain. -/
theorem c6_code_eval :
    (runOps (emptyModel Unit Nat)
      [.insert 10, .insert 20, .insert 30, .remove 0,
       .makeVisible 1, .makeVisible 0, .makeVisible 1]).map
      (fun m => (m.first_invisible, m.instances.length)) = some (3, 2) := by
  decide

/-- C3 counterexample: in the registry reached by `insert(10); insert(20)`
(both instances hidden, handle 1 associated with value 20), `remove(1)`
succeeds but returns 10 — the instance of handle 0 — because the source
swaps position `first_invisible` (not the removed handle's position) with
the last slot before popping. -/
theorem c3_counterexample :
    ((runOps (emptyModel Unit Nat) [.insert 10, .insert 20]).map
      (fun m => (m.get 1,
        match m.remove 1 with
        | .ok v _ => some v
        | _ => none)) = some (some 20, some 10)) ∧
    ¬ (∀ (m : Model Unit Nat) (v : Nat) (m1 : Model Unit Nat),
        runOps (emptyModel Unit Nat) [.insert 10, .insert 20] = some m →
        m.remove 1 = .ok v m1 → m.get 1 = some v) := by
  refine ⟨by decide, fun hyp => ?_⟩
  have h1 := hyp _ 10 _ rfl rfl
  exact absurd h1 (by decide)

/-- C4 counterexample: `swap_by_handle(0, 0)` on the empty registry — where
handle 0 is not registered — returns `Ok(())` because of the early
`handle1 == handle2` return, contradicting the claim that every
handle-taking operation fails with `InvalidHandle` exactly on unregistered
handles. -/
theorem c4_counterexample :
    assocFind (emptyModel Unit Nat).handle_to_index 0 = none ∧
    Model.swap_by_handle (emptyModel Unit Nat) 0 0 = .ok () (emptyModel Unit Nat) ∧
    ¬ (∀ (m : Model Unit Nat) (h : Nat), assocFind m.handle_to_index h = none →
        ∃ m1, m.swap_by_handle h h = .err m1) := by
  refine ⟨by decide, by decide, fun hyp => ?_⟩
  obtain ⟨m1, hm1⟩ := hyp (emptyModel Unit Nat) 0 (by decide)
  rw [show Model.swap_by_handle (emptyModel Unit Nat) 0 0
      = .ok () (emptyModel Unit Nat) from by decide] at hm1
  exact OpOut.noConfusion hm1

section ErrorHandling

variable {V I : Type}

/-- Lemma: `get` returns `None` exactly on unregistered handles, provided every map
entry is in bounds (`instances.get(index)` is the second `None` source). -/
theorem get_none_iff (m : Model V I) (h : Nat)
    (hb : ∀ k i, assocFind m.handle_to_index k = some i → i < m.instances.length) :
    m.get h = none ↔ assocFind m.handle_to_index h = none := by
  unfold Model.get
  cases hf : assocFind m.handle_to_index h with
  | none => simp
  | some i =>
    have hi := hb h i hf
    have hne : m.instances.get? i ≠ none := by rw [Ne, List.get?_eq_none]; omega
    simp [hne, hi]

/-- Lemma: `get_mut` likewise. -/
theorem get_mut_none_iff (m : Model V I) (h : Nat)
    (hb : ∀ k i, assocFind m.handle_to_index k = some i → i < m.instances.length) :
    m.get_mut h = none ↔ assocFind m.handle_to_index h = none := by
  unfold Model.get_mut
  cases hf : assocFind m.handle_to_index h with
  | none => simp
  | some i =>
    have hi := hb h i hf
    have hne : m.instances.get? i ≠ none := by rw [Ne, List.get?_eq_none]; omega
    simp [hne, hi]

/-- Lemma: `in_visible` signals `InvalidHandle` exactly on unregistered handles. -/
theorem in_visible_invalid_iff (m : Model V I) (h : Nat) :
    m.in_visible h = .invalidHandle ↔ assocFind m.handle_to_index h = none := by
  unfold Model.in_visible
  cases hf : assocFind m.handle_to_index h <;> simp

/-- Lemma: `make_visible` yields `Err(InvalidHandle)` exactly on unregistered
handles, and then leaves the state unchanged. -/
theorem make_visible_err_iff (m : Model V I) (h : Nat) :
    (∃ m1, m.make_visible h = .err m1) ↔ assocFind m.handle_to_index h = none := by
  unfold Model.make_visible
  cases hf : assocFind m.handle_to_index h with
  | none => simp
  | some i =>
    simp only [reduceCtorEq, iff_false, not_exists]
    intro m1 hm1
    split at hm1
    · exact OpOut.noConfusion hm1
    · split at hm1 <;> exact OpOut.noConfusion hm1

/-- Lemma: `make_invisible` yields `Err(InvalidHandle)` exactly on unregistered
handles. -/
theorem make_invisible_err_iff (m : Model V I) (h : Nat) :
    (∃ m1, m.make_invisible h = .err m1) ↔ assocFind m.handle_to_index h = none := by
  unfold Model.make_invisible
  cases hf : assocFind m.handle_to_index h with
  | none => simp
  | some i =>
    simp only [reduceCtorEq, iff_false, not_exists]
    intro m1 hm1
    split at hm1
    · exact OpOut.noConfusion hm1
    · split at hm1 <;> exact OpOut.noConfusion hm1

/-- Lemma: `remove` yields `Err(InvalidHandle)` exactly on unregistered handles. -/
theorem remove_err_iff (m : Model V I) (h : Nat) :
    (∃ m1, m.remove h = .err m1) ↔ assocFind m.handle_to_index h = none := by
  unfold Model.remove
  cases hf : assocFind m.handle_to_index h with
  | none => simp
  | some i =>
    simp only [reduceCtorEq, iff_false, not_exists]
    intro m1 hm1
    split at hm1
    · exact OpOut.noConfusion hm1
    · split at hm1
      · exact OpOut.noConfusion hm1
      · split at hm1
        · exact OpOut.noConfusion hm1
        · split at hm1 <;> exact OpOut.noConfusion hm1

/-- Lemma: `swap_by_handle` on two distinct handles yields `Err(InvalidHandle)`
exactly when one of them is unregistered. -/
theorem swap_by_handle_err_iff (m : Model V I) (h1 h2 : Nat) (hne : h1 ≠ h2) :
    (∃ m1, m.swap_by_handle h1 h2 = .err m1) ↔
      (assocFind m.handle_to_index h1 = none ∨ assocFind m.handle_to_index h2 = none) := by
  unfold Model.swap_by_handle
  rw [if_neg hne]
  cases hf1 : assocFind m.handle_to_index h1 with
  | none => simp
  | some i1 =>
    cases hf2 : assocFind m.handle_to_index h2 with
    | none => simp
    | some i2 =>
      simp only [reduceCtorEq, or_self, iff_false, not_exists]
      intro m1 hm1
      split at hm1 <;> exact OpOut.noConfusion hm1

/-- On an `InvalidHandle` failure `make_visible` leaves the state unchanged. -/
theorem make_visible_err_state (m m1 : Model V I) (h : Nat)
    (he : m.make_visible h = .err m1) : m1 = m := by
  have hf : assocFind m.handle_to_index h = none := (make_visible_err_iff m h).mp ⟨m1, he⟩
  unfold Model.make_visible at he
  rw [hf] at he
  exact (OpOut.err.inj he).symm

/-- On an `InvalidHandle` failure `make_invisible` leaves the state unchanged. -/
theorem make_invisible_err_state (m m1 : Model V I) (h : Nat)
    (he : m.make_invisible h = .err m1) : m1 = m := by
  have hf : assocFind m.handle_to_index h = none := (make_invisible_err_iff m h).mp ⟨m1, he⟩
  unfold Model.make_invisible at he
  rw [hf] at he
  exact (OpOut.err.inj he).symm

/-- On an `InvalidHandle` failure `remove` leaves the state unchanged. -/
theorem remove_err_state (m m1 : Model V I) (h : Nat)
    (he : m.remove h = .err m1) : m1 = m := by
  have hf : assocFind m.handle_to_index h = none := (remove_err_iff m h).mp ⟨m1, he⟩
  unfold Model.remove at he
  rw [hf] at he
  exact (OpOut.err.inj he).symm

/-- On an `InvalidHandle` failure `swap_by_handle` leaves the state
unchanged. -/
theorem swap_by_handle_err_state (m m1 : Model V I) (h1 h2 : Nat)
    (he : m.swap_by_handle h1 h2 = .err m1) : m1 = m := by
  unfold Model.swap_by_handle at he
  split at he
  · exact OpOut.noConfusion he
  · split at he
    · split at he <;> exact OpOut.noConfusion he
    · exact (OpOut.err.inj he).symm

end ErrorHandling

/-- C4 (amended): every handle-taking operation fails with `InvalidHandle`
iff a supplied handle is not a key of `handle_to_index` — except
`swap_by_handle(h, h)`, which returns `Ok(())` without checking
registration — where for `get`/`get_mut` (which return `Option`, not
`Result`) failing means returning `None` and the equivalence additionally
needs every map entry to be in bounds; on any `InvalidHandle` failure the
registry state is unchanged. -/
theorem c4_amended {V I : Type} (m : Model V I) (h h1 h2 : Nat)
    (hb : ∀ k i, assocFind m.handle_to_index k = some i → i < m.instances.length) :
    (m.get h = none ↔ assocFind m.handle_to_index h = none) ∧
    (m.get_mut h = none ↔ assocFind m.handle_to_index h = none) ∧
    (m.in_visible h = .invalidHandle ↔ assocFind m.handle_to_index h = none) ∧
    ((∃ m1, m.make_visible h = .err m1) ↔ assocFind m.handle_to_index h = none) ∧
    ((∃ m1, m.make_invisible h = .err m1) ↔ assocFind m.handle_to_index h = none) ∧
    ((∃ m1, m.remove h = .err m1) ↔ assocFind m.handle_to_index h = none) ∧
    (h1 ≠ h2 →
      ((∃ m1, m.swap_by_handle h1 h2 = .err m1) ↔
        (assocFind m.handle_to_index h1 = none ∨ assocFind m.handle_to_index h2 = none))) ∧
    m.swap_by_handle h h = .ok () m ∧
    (∀ m1, m.make_visible h = .err m1 → m1 = m) ∧
    (∀ m1, m.make_invisible h = .err m1 → m1 = m) ∧
    (∀ m1, m.remove h = .err m1 → m1 = m) ∧
    (∀ m1, m.swap_by_handle h1 h2 = .err m1 → m1 = m) :=
  ⟨get_none_iff m h hb, get_mut_none_iff m h hb, in_visible_invalid_iff m h,
   make_visible_err_iff m h, make_invisible_err_iff m h, remove_err_iff m h,
   fun hne => swap_by_handle_err_iff m h1 h2 hne,
   by unfold Model.swap_by_handle; simp,
   fun m1 => make_visible_err_state m m1 h,
   fun m1 => make_invisible_err_state m m1 h,
   fun m1 => remove_err_state m m1 h,
   fun m1 => swap_by_handle_err_state m m1 h1 h2⟩

/-- Every map entry of `regOne` is in bounds. -/
theorem regOne_bounds :
    ∀ k i, assocFind regOne.handle_to_index k = some i → i < regOne.instances.length := by
  intro k i hk
  cases k with
  | zero =>
    simp [regOne, emptyModel, Model.insert, assocInsert, assocErase, assocFind] at hk
    simp [regOne, emptyModel, Model.insert]
    omega
  | succ n =>
    simp [regOne, emptyModel, Model.insert, assocInsert, assocErase, assocFind] at hk

/-- Witness for `c4_amended` at the concrete one-instance registry, with
handle 0 registered and handle 5 unregistered. -/
theorem c4_amended_witness :
    (regOne.get 0 = none ↔ assocFind regOne.handle_to_index 0 = none) ∧
    regOne.swap_by_handle 0 0 = .ok () regOne :=
  ⟨(c4_amended regOne 0 0 5 regOne_bounds).1,
   (c4_amended regOne 0 0 5 regOne_bounds).2.2.2.2.2.2.2.1⟩

section RemoveSpec

variable {V I : Type}

/-- Setting an in-bounds position and reading it back. -/
theorem get?_set_self_of_lt {α : Type} (l : List α) (i : Nat) (b : α) (h : i < l.length) :
    (l.set i b).get? i = some b := by
  simp [List.get?_eq_getElem?, List.getElem?_set_self, h]

/-- Lemma: `Vec::swap` on two in-bounds positions: it succeeds, keeps the length,
exchanges the two positions and leaves every other position unchanged. -/
theorem vecSwap_spec {α : Type} (l : List α) (i j : Nat)
    (hi : i < l.length) (hj : j < l.length) :
    ∃ l2, vecSwap l i j = some l2 ∧ l2.length = l.length ∧
      l2.get? j = l.get? i ∧ l2.get? i = l.get? j ∧
      ∀ k, k ≠ i → k ≠ j → l2.get? k = l.get? k := by
  have hgi : l.get? i = some (l.get ⟨i, hi⟩) := by
    simp [List.get?_eq_getElem?, List.getElem?_eq_getElem, hi]
  have hgj : l.get? j = some (l.get ⟨j, hj⟩) := by
    simp [List.get?_eq_getElem?, List.getElem?_eq_getElem, hj]
  refine ⟨(l.set i (l.get ⟨j, hj⟩)).set j (l.get ⟨i, hi⟩), ?_, by simp, ?_, ?_, ?_⟩
  · unfold vecSwap
    rw [hgi, hgj]
  · rw [get?_set_self_of_lt _ j _ (by simp [hi, hj]), hgi]
  · by_cases hij : i = j
    · subst hij
      rw [get?_set_self_of_lt _ i _ (by simp [hi]), hgi]
    · rw [List.get?_set_ne _ _ (Ne.symm hij), get?_set_self_of_lt _ i _ (by simpa using hi), hgj]
  · intro k hki hkj
    rw [List.get?_set_ne _ _ (fun he => hkj he.symm), List.get?_set_ne _ _ (fun he => hki he.symm)]

/-- Lemma: `swap_by_index` on two in-bounds positions: it succeeds, preserves the
lengths and `first_invisible`, exchanges the two instance slots and leaves
every other instance slot unchanged. -/
theorem swap_by_index_ok (m : Model V I) (i j : Nat)
    (hih : i < m.handles.length) (hjh : j < m.handles.length)
    (hii : i < m.instances.length) (hji : j < m.instances.length) :
    ∃ m2, m.swap_by_index i j = some m2 ∧
      m2.handles.length = m.handles.length ∧
      m2.instances.length = m.instances.length ∧
      m2.first_invisible = m.first_invisible ∧
      m2.instances.get? j = m.instances.get? i ∧
      m2.instances.get? i = m.instances.get? j ∧
      ∀ k, k ≠ i → k ≠ j → m2.instances.get? k = m.instances.get? k := by
  by_cases hij : i = j
  · subst hij
    exact ⟨m, by unfold Model.swap_by_index; rw [if_pos rfl], rfl, rfl, rfl, rfl, rfl,
      fun _ _ _ => rfl⟩
  · have hh1 : m.handles.get? i = some (m.handles.get ⟨i, hih⟩) := by
      simp [List.get?_eq_getElem?, List.getElem?_eq_getElem, hih]
    have hh2 : m.handles.get? j = some (m.handles.get ⟨j, hjh⟩) := by
      simp [List.get?_eq_getElem?, List.getElem?_eq_getElem, hjh]
    obtain ⟨lh, hlh, hlhlen, _, _, _⟩ := vecSwap_spec m.handles i j hih hjh
    obtain ⟨li, hli, hlilen, hgj, hgi, hother⟩ := vecSwap_spec m.instances i j hii hji
    refine ⟨{ m with
        handles := lh
        instances := li
        handle_to_index :=
          assocInsert (assocInsert m.handle_to_index i (m.handles.get ⟨j, hjh⟩)) j
            (m.handles.get ⟨i, hih⟩) },
      ?_, hlhlen, hlilen, rfl, hgj, hgi, hother⟩
    unfold Model.swap_by_index
    rw [if_neg hij, hh1, hh2, hlh, hli]

/-- Lemma: `HashMap::remove` really removes: a lookup of the removed key fails. -/
theorem assocFind_erase_self {κ ν : Type} [DecidableEq κ] (m : List (κ × ν)) (k : κ) :
    assocFind (assocErase m k) k = none := by
  induction m with
  | nil => rfl
  | cons p rest ih =>
    by_cases hk : p.1 = k
    · simpa [assocErase, List.filter_cons, hk] using ih
    · simpa [assocErase, List.filter_cons, hk, assocFind] using ih

/-- C3 (amended): on a well-formed registry `remove(h)` succeeds for every
registered handle `h`, erases `h` from the map and shrinks the instance
sequence by exactly one; the returned value is the instance previously
associated with `h` when `h` is visible or sits exactly at position
`first_invisible`, but is the instance at position `first_invisible`
otherwise — the source swaps position `first_invisible`, not the removed
handle's position, with the last slot before popping. -/
theorem c3_remove_spec (m : Model V I) (h i : Nat) (hwf : WF m)
    (hfind : assocFind m.handle_to_index h = some i) :
    ∃ v m1, m.remove h = .ok v m1 ∧
      m1.instances.length = m.instances.length - 1 ∧
      assocFind m1.handle_to_index h = none ∧
      (i ≤ m.first_invisible → m.instances.get? i = some v) ∧
      (m.first_invisible < i → m.instances.get? m.first_invisible = some v) := by
  have hhi : m.handles.get? i = some h := hwf.find_handles h i hfind
  have hilenh : i < m.handles.length := (List.get?_eq_some.mp hhi).choose
  have hleq := hwf.len_eq
  have hfile := hwf.fi_le
  have hilen : i < m.instances.length := by omega
  by_cases hvis : i < m.first_invisible
  · -- the handle is visible: swap to `first_invisible - 1`, decrement, then
    -- swap position `first_invisible` with the last slot and pop
    have hf1i : m.first_invisible - 1 < m.instances.length := by omega
    have hf1h : m.first_invisible - 1 < m.handles.length := by omega
    obtain ⟨ms, hsw, hslh, hsli, hsfi, hsgj, _, _⟩ :=
      swap_by_index_ok m i (m.first_invisible - 1) hilenh hf1h hilen hf1i
    have hne0 : ¬ ms.instances.length = 0 := by omega
    have hbfi : ms.first_invisible - 1 < ms.handles.length := by omega
    have hbfli : ms.first_invisible - 1 < ms.instances.length := by omega
    have hblh : ms.instances.length - 1 < ms.handles.length := by omega
    have hbli : ms.instances.length - 1 < ms.instances.length := by omega
    obtain ⟨m2, hsw2, h2lh, h2li, h2fi, h2gj, h2gi, h2other⟩ :=
      swap_by_index_ok { ms with first_invisible := ms.first_invisible - 1 }
        (ms.first_invisible - 1) (ms.instances.length - 1) hbfi hblh hbfli hbli
    have hv : m.instances.get? i = some (m.instances.get ⟨i, hilen⟩) := by
      simp [List.get?_eq_getElem?, List.getElem?_eq_getElem, hilen]
    have h2li' : m2.instances.length = m.instances.length := by
      simpa [hsli] using h2li
    have hlast : m2.instances.getLast? = some (m.instances.get ⟨i, hilen⟩) := by
      rw [List.getLast?_eq_get?, h2li']
      have := h2gj
      simp only at this
      rw [hsli] at this
      rw [this, hsfi, hsgj, hv]
    have hrm : m.remove h =
        .ok (m.instances.get ⟨i, hilen⟩)
          { m2 with
            handles := m2.handles.dropLast
            handle_to_index := assocErase m2.handle_to_index h
            instances := m2.instances.dropLast } := by
      unfold Model.remove
      rw [hfind]
      simp only [if_pos hvis, hsw, Option.map_some', hne0, if_false, hsw2, hlast,
        ite_false, eq_self_iff_true]
    refine ⟨m.instances.get ⟨i, hilen⟩, _, hrm, ?_, assocFind_erase_self _ _, ?_, ?_⟩
    · simp [List.length_dropLast, h2li']
    · intro _
      exact hv
    · intro hgt
      omega
  · -- the handle is hidden: the source swaps position `first_invisible`
    -- (not `i`) with the last slot and pops
    have hfi : m.first_invisible < m.instances.length := by omega
    have hfihh : m.first_invisible < m.handles.length := by omega
    have hlh : m.instances.length - 1 < m.handles.length := by omega
    have hli : m.instances.length - 1 < m.instances.length := by omega
    obtain ⟨m2, hsw2, h2lh, h2li, h2fi, h2gj, h2gi, h2other⟩ :=
      swap_by_index_ok m m.first_invisible (m.instances.length - 1) hfihh hlh hfi hli
    have hv : m.instances.get? m.first_invisible
        = some (m.instances.get ⟨m.first_invisible, hfi⟩) := by
      simp [List.get?_eq_getElem?, List.getElem?_eq_getElem, hfi]
    have hne0 : ¬ m.instances.length = 0 := by omega
    have hlast : m2.instances.getLast? = some (m.instances.get ⟨m.first_invisible, hfi⟩) := by
      rw [List.getLast?_eq_get?, h2li, h2gj, hv]
    have hrm : m.remove h =
        .ok (m.instances.get ⟨m.first_invisible, hfi⟩)
          { m2 with
            handles := m2.handles.dropLast
            handle_to_index := assocErase m2.handle_to_index h
            instances := m2.instances.dropLast } := by
      unfold Model.remove
      rw [hfind]
      simp only [if_neg hvis, hne0, if_false, hsw2, hlast, ite_false, eq_self_iff_true]
    refine ⟨m.instances.get ⟨m.first_invisible, hfi⟩, _, hrm, ?_,
      assocFind_erase_self _ _, ?_, ?_⟩
    · simp [List.length_dropLast, h2li]
    · intro hle
      have : i = m.first_invisible := by omega
      rw [this]
      exact hv
    · intro _
      exact hv

/-- The one-instance registry is well formed. -/
theorem regOne_wf : WF regOne := by
  refine ⟨rfl, by decide, ?_⟩
  intro h i hfi
  cases h with
  | zero =>
    simp [regOne, emptyModel, Model.insert, assocInsert, assocErase, assocFind] at hfi
    simp [regOne, emptyModel, Model.insert, ← hfi]
  | succ n =>
    simp [regOne, emptyModel, Model.insert, assocInsert, assocErase, assocFind] at hfi

/-- Witness for `c3_remove_spec` at the one-instance registry: handle 0 is
registered at index 0. -/
theorem c3_remove_spec_witness :
    ∃ v m1, regOne.remove 0 = .ok v m1 ∧
      m1.instances.length = regOne.instances.length - 1 ∧
      assocFind m1.handle_to_index 0 = none ∧
      (0 ≤ regOne.first_invisible → regOne.instances.get? 0 = some v) ∧
      (regOne.first_invisible < 0 → regOne.instances.get? regOne.first_invisible = some v) :=
  c3_remove_spec regOne 0 0 regOne_wf (by decide)

end RemoveSpec

section Refinement

/-- Two unordered edges coincide exactly when the endpoint pairs match up to
orientation. -/
theorem edgeKey_eq_iff (a b x y : Nat) :
    edgeKey a b = edgeKey x y ↔ (a = x ∧ b = y) ∨ (a = y ∧ b = x) := by
  simp only [edgeKey, Prod.mk.injEq]
  omega

/-- Erasing one key leaves lookups of other keys unchanged. -/
theorem assocFind_erase_ne {κ ν : Type} [DecidableEq κ] (m : List (κ × ν)) (k k2 : κ)
    (h : k ≠ k2) : assocFind (assocErase m k) k2 = assocFind m k2 := by
  induction m with
  | nil => rfl
  | cons p rest ih =>
    rcases p with ⟨pk, pv⟩
    by_cases hp : pk = k
    · have hp2 : ¬ pk = k2 := by rw [hp]; exact h
      rw [show assocErase ((pk, pv) :: rest) k = assocErase rest k from by
        simp [assocErase, hp]]
      rw [ih]
      rw [show assocFind ((pk, pv) :: rest) k2 = assocFind rest k2 from by
        simp [assocFind, hp2]]
    · rw [show assocErase ((pk, pv) :: rest) k = (pk, pv) :: assocErase rest k from by
        simp [assocErase, hp]]
      show (if pk = k2 then some pv else assocFind (assocErase rest k) k2) = _
      rw [ih]
      rfl

/-- Lookup after insert: the inserted key wins, others are unchanged. -/
theorem assocFind_insert {κ ν : Type} [DecidableEq κ] (m : List (κ × ν)) (k k2 : κ) (v : ν) :
    assocFind (assocInsert m k v) k2 = if k = k2 then some v else assocFind m k2 := by
  by_cases h : k = k2
  · simp [assocInsert, assocFind, h]
  · simp [assocInsert, assocFind, h, assocFind_erase_ne m k k2 h]

/-- One midpoint step: the vertex count grows to account for the edge
`(x, y)` being known, and the cache then knows exactly
`insert (edgeKey x y) E`. -/
theorem getMid_spec (vd : List VertexData) (cache : MidCache) (x y : Nat)
    (vx vy : VertexData) (E : Finset (Nat × Nat)) (n : Nat)
    (hlen : vd.length = n + E.card) (hinv : CacheInv cache E) :
    (getMid vd cache x y vx vy).2.1.length = n + (insert (edgeKey x y) E).card ∧
    CacheInv (getMid vd cache x y vx vy).2.2 (insert (edgeKey x y) E) := by
  unfold getMid
  cases hc : assocFind cache (x, y) with
  | some mxy =>
    have hmem : edgeKey x y ∈ E := (hinv x y).mp (by rw [hc]; rfl)
    rw [Finset.insert_eq_self.mpr hmem]
    exact ⟨hlen, hinv⟩
  | none =>
    have hnmem : edgeKey x y ∉ E := by
      intro hm
      have hs := (hinv x y).mpr hm
      rw [hc] at hs
      exact Bool.noConfusion hs
    constructor
    · simp only [List.length_append, List.length_cons, List.length_nil, hlen,
        Finset.card_insert_of_not_mem hnmem]
      omega
    · intro a b
      simp only [assocFind_insert]
      rw [Finset.mem_insert]
      by_cases h1 : ((y, x) : Nat × Nat) = (a, b)
      · simp only [if_pos h1, Option.isSome_some, true_iff]
        left
        rcases Prod.mk.injEq .. ▸ h1 with ⟨hy, hx⟩
        exact (edgeKey_eq_iff a b x y).mpr (Or.inr ⟨hy.symm, hx.symm⟩)
      · rw [if_neg h1]
        by_cases h2 : ((x, y) : Nat × Nat) = (a, b)
        · simp only [if_pos h2, Option.isSome_some, true_iff]
          left
          rcases Prod.mk.injEq .. ▸ h2 with ⟨hx, hy⟩
          exact (edgeKey_eq_iff a b x y).mpr (Or.inl ⟨hx.symm, hy.symm⟩)
        · rw [if_neg h2, hinv a b]
          have hne : ¬ edgeKey a b = edgeKey x y := by
            intro he
            rcases (edgeKey_eq_iff a b x y).mp he with ⟨hax, hby⟩ | ⟨hay, hbx⟩
            · exact h2 (by rw [hax, hby])
            · exact h1 (by rw [hay, hbx])
          simp [hne]

/-- Fuel-indexed form of the refine-loop counting argument. -/
theorem refineGo_spec_aux (k : Nat) :
    ∀ (idx : List Nat) (vd : List VertexData) (cache : MidCache)
      (E : Finset (Nat × Nat)) (n : Nat),
      idx.length ≤ k →
      vd.length = n + E.card → CacheInv cache E →
      ∀ vdf idxf, refineGo vd cache idx = some (vdf, idxf) →
        vdf.length = n + (E ∪ edgeFinset idx).card ∧ idxf.length = 4 * idx.length := by
  induction k with
  | zero =>
    intro idx vd cache E n hk hlen hinv vdf idxf hsome
    rcases idx with _ | ⟨a, tail⟩
    · have hpair := Option.some.inj hsome
      rw [Prod.mk.injEq] at hpair
      obtain ⟨h1, h2⟩ := hpair
      subst h1
      subst h2
      simp [edgeFinset, hlen]
    · simp at hk
  | succ k ih =>
    intro idx vd cache E n hk hlen hinv vdf idxf hsome
    rcases idx with _ | ⟨a, _ | ⟨b, _ | ⟨c, rest⟩⟩⟩
    · have hpair := Option.some.inj hsome
      rw [Prod.mk.injEq] at hpair
      obtain ⟨h1, h2⟩ := hpair
      subst h1
      subst h2
      simp [edgeFinset, hlen]
    · exact Option.noConfusion hsome
    · exact Option.noConfusion hsome
    · cases hga : vd.get? a with
      | none =>
        simp only [refineGo, hga] at hsome
        exact Option.noConfusion hsome
      | some va =>
        cases hgb : vd.get? b with
        | none =>
          simp only [refineGo, hga, hgb] at hsome
          exact Option.noConfusion hsome
        | some vb =>
          cases hgc : vd.get? c with
          | none =>
            simp only [refineGo, hga, hgb, hgc] at hsome
            exact Option.noConfusion hsome
          | some vc =>
            simp only [refineGo, hga, hgb, hgc] at hsome
            obtain ⟨hlen1, hinv1⟩ := getMid_spec vd cache a b va vb E n hlen hinv
            obtain ⟨hlen2, hinv2⟩ := getMid_spec _ _ b c vb vc _ n hlen1 hinv1
            obtain ⟨hlen3, hinv3⟩ := getMid_spec _ _ c a vc va _ n hlen2 hinv2
            split at hsome
            · rename_i p hrec
              have hpair := Option.some.inj hsome
              rw [Prod.mk.injEq] at hpair
              obtain ⟨h1, h2⟩ := hpair
              obtain ⟨hL, hI⟩ :=
                ih rest _ _ _ n (by simp at hk; omega) hlen3 hinv3 p.1 p.2 (by rw [hrec])
              constructor
              · rw [← h1, hL]
                have hsets :
                    insert (edgeKey c a) (insert (edgeKey b c) (insert (edgeKey a b) E))
                        ∪ edgeFinset rest
                      = E ∪ edgeFinset (a :: b :: c :: rest) := by
                  ext e
                  simp only [Finset.mem_union, Finset.mem_insert, edgeFinset]
                  tauto
                rw [hsets]
              · rw [← h2]
                simp only [List.length_append, List.length_cons, List.length_nil]
                omega
            · exact Option.noConfusion hsome

/-- The refine loop: when it succeeds it quadruples the index count and adds
one vertex for every unordered edge not already in the cache. -/
theorem refineGo_spec (vd : List VertexData) (cache : MidCache) (idx : List Nat)
    (E : Finset (Nat × Nat)) (n : Nat)
    (hlen : vd.length = n + E.card) (hinv : CacheInv cache E)
    (vdf : List VertexData) (idxf : List Nat)
    (hsome : refineGo vd cache idx = some (vdf, idxf)) :
    vdf.length = n + (E ∪ edgeFinset idx).card ∧ idxf.length = 4 * idx.length :=
  refineGo_spec_aux idx.length idx vd cache E n le_rfl hlen hinv vdf idxf hsome

set_option maxRecDepth 100000 in
/-- C7: `sphere(0)` has 12 vertices and 60 indices (20 triangles),
`sphere(1)` has 42 vertices and 240 indices, the icosahedron has 30 unique
edges, and in general a successful `refine` pass multiplies the index count
by 4 and adds exactly one vertex per unique (unordered) edge of the
mesh. -/
theorem c7_icosphere_counts :
    ((sphere 0).map (fun m => (m.vertex_data.length, m.index_data.length))
        = some (12, 60)) ∧
    ((sphere 1).map (fun m => (m.vertex_data.length, m.index_data.length))
        = some (42, 240)) ∧
    (edgeFinset icosahedron.index_data).card = 30 ∧
    ∀ m m1, refine m = some m1 →
      m1.index_data.length = 4 * m.index_data.length ∧
      m1.vertex_data.length = m.vertex_data.length + (edgeFinset m.index_data).card := by
  refine ⟨by rfl, by rfl, by rfl, ?_⟩
  intro m m1 hr
  unfold refine at hr
  cases hgo : refineGo m.vertex_data [] m.index_data with
  | none => rw [hgo] at hr; exact Option.noConfusion hr
  | some p =>
    rw [hgo] at hr
    have hm1 := Option.some.inj hr
    obtain ⟨hL, hI⟩ :=
      refineGo_spec m.vertex_data [] m.index_data ∅ m.vertex_data.length (by simp)
        (by intro a b; simp [assocFind]) p.1 p.2 (by rw [hgo])
    constructor
    · rw [← hm1]
      exact hI
    · rw [← hm1]
      simpa using hL

set_option maxRecDepth 100000 in
/-- Witness for the universally quantified part of `c7_icosphere_counts`:
refining the one-triangle mesh quadruples its 3 indices to 12 and adds one
vertex per unique edge (3 of them). -/
theorem c7_icosphere_counts_witness :
    ∃ m1, refine triMesh = some m1 ∧
      m1.index_data.length = 4 * triMesh.index_data.length ∧
      m1.vertex_data.length = triMesh.vertex_data.length
        + (edgeFinset triMesh.index_data).card :=
  ⟨_, rfl, c7_icosphere_counts.2.2.2 triMesh _ rfl⟩

end Refinement

section SphereNormals

/-- Normalising a vector of positive squared norm yields a unit vector. -/
theorem normSq_normalize (v : Vec3) (h : 0 < normSq v) : normSq (normalize v) = 1 := by
  have hS : (0 : ℝ) < v.1 * v.1 + v.2.1 * v.2.1 + v.2.2 * v.2.2 := h
  have hl : Real.sqrt (v.1 * v.1 + v.2.1 * v.2.1 + v.2.2 * v.2.2) ^ 2
      = v.1 * v.1 + v.2.1 * v.2.1 + v.2.2 * v.2.2 := Real.sq_sqrt hS.le
  have hlpos : 0 < Real.sqrt (v.1 * v.1 + v.2.1 * v.2.1 + v.2.2 * v.2.2) :=
    Real.sqrt_pos.mpr hS
  show v.1 / Real.sqrt (v.1 * v.1 + v.2.1 * v.2.1 + v.2.2 * v.2.2)
      * (v.1 / Real.sqrt (v.1 * v.1 + v.2.1 * v.2.1 + v.2.2 * v.2.2))
      + v.2.1 / Real.sqrt (v.1 * v.1 + v.2.1 * v.2.1 + v.2.2 * v.2.2)
      * (v.2.1 / Real.sqrt (v.1 * v.1 + v.2.1 * v.2.1 + v.2.2 * v.2.2))
      + v.2.2 / Real.sqrt (v.1 * v.1 + v.2.1 * v.2.1 + v.2.2 * v.2.2)
      * (v.2.2 / Real.sqrt (v.1 * v.1 + v.2.1 * v.2.1 + v.2.2 * v.2.2)) = 1
  have hlne : Real.sqrt (v.1 * v.1 + v.2.1 * v.2.1 + v.2.2 * v.2.2) ≠ 0 := ne_of_gt hlpos
  field_simp

/-- Normalising is idempotent on vectors of positive squared norm. -/
theorem normalize_normalize (v : Vec3) (h : 0 < normSq v) :
    normalize (normalize v) = normalize v := by
  have h1 : normSq (normalize v) = 1 := normSq_normalize v h
  have hs : Real.sqrt ((normalize v).1 * (normalize v).1
      + (normalize v).2.1 * (normalize v).2.1
      + (normalize v).2.2 * (normalize v).2.2) = 1 := by
    rw [show (normalize v).1 * (normalize v).1 + (normalize v).2.1 * (normalize v).2.1
        + (normalize v).2.2 * (normalize v).2.2 = normSq (normalize v) from rfl, h1]
    exact Real.sqrt_one
  show ((normalize v).1 / Real.sqrt ((normalize v).1 * (normalize v).1
      + (normalize v).2.1 * (normalize v).2.1 + (normalize v).2.2 * (normalize v).2.2),
    (normalize v).2.1 / Real.sqrt ((normalize v).1 * (normalize v).1
      + (normalize v).2.1 * (normalize v).2.1 + (normalize v).2.2 * (normalize v).2.2),
    (normalize v).2.2 / Real.sqrt ((normalize v).1 * (normalize v).1
      + (normalize v).2.1 * (normalize v).2.1 + (normalize v).2.2 * (normalize v).2.2))
    = normalize v
  rw [hs]
  simp

/-- C8 (amended): `sphere(n)` replaces every vertex position by
`normalize(position)` and leaves the normal field exactly as built by
`icosahedron`/`refine`; consequently `normal == normalize(position)` does
hold for `sphere(0)` (whose normals were constructed as normalised
positions), but not in general for refined spheres. -/
theorem c8_amended :
    (∀ n m, sphere n = some m → ∃ m0, refineIter n icosahedron = some m0 ∧
      m.vertex_data
        = m0.vertex_data.map (fun v => { v with position := normalize v.position }) ∧
      m.index_data = m0.index_data) ∧
    (∀ m, sphere 0 = some m → ∀ v ∈ m.vertex_data, v.normal = normalize v.position) := by
  constructor
  · intro n m hm
    unfold sphere at hm
    cases hit : refineIter n icosahedron with
    | none => rw [hit] at hm; exact Option.noConfusion hm
    | some m0 =>
      rw [hit] at hm
      exact ⟨m0, rfl, by rw [← Option.some.inj hm], by rw [← Option.some.inj hm]⟩
  · intro m hm
    have hm' : m = { icosahedron with
        vertex_data :=
          icosahedron.vertex_data.map (fun v => { v with position := normalize v.position }) } :=
      (Option.some.inj hm).symm
    subst hm'
    intro v hv
    simp only [icosahedron, List.map_cons, List.map_nil, List.mem_cons,
      List.not_mem_nil, or_false] at hv
    rcases hv with hv | hv | hv | hv | hv | hv | hv | hv | hv | hv | hv | hv <;> subst hv
    · exact (normalize_normalize (phi, -1, 0) (by
        show (0:ℝ) < phi * phi + -1 * -1 + 0 * 0
        nlinarith [mul_self_nonneg phi])).symm
    · exact (normalize_normalize (phi, 1, 0) (by
        show (0:ℝ) < phi * phi + 1 * 1 + 0 * 0
        nlinarith [mul_self_nonneg phi])).symm
    · exact (normalize_normalize (-phi, -1, 0) (by
        show (0:ℝ) < -phi * -phi + -1 * -1 + 0 * 0
        nlinarith [mul_self_nonneg phi])).symm
    · exact (normalize_normalize (-phi, 1, 0) (by
        show (0:ℝ) < -phi * -phi + 1 * 1 + 0 * 0
        nlinarith [mul_self_nonneg phi])).symm
    · exact (normalize_normalize (1, 0, -phi) (by
        show (0:ℝ) < 1 * 1 + 0 * 0 + -phi * -phi
        nlinarith [mul_self_nonneg phi])).symm
    · exact (normalize_normalize (-1, 0, -phi) (by
        show (0:ℝ) < -1 * -1 + 0 * 0 + -phi * -phi
        nlinarith [mul_self_nonneg phi])).symm
    · exact (normalize_normalize (1, 0, phi) (by
        show (0:ℝ) < 1 * 1 + 0 * 0 + phi * phi
        nlinarith [mul_self_nonneg phi])).symm
    · exact (normalize_normalize (-1, 0, phi) (by
        show (0:ℝ) < -1 * -1 + 0 * 0 + phi * phi
        nlinarith [mul_self_nonneg phi])).symm
    · exact (normalize_normalize (0, -phi, -1) (by
        show (0:ℝ) < 0 * 0 + -phi * -phi + -1 * -1
        nlinarith [mul_self_nonneg phi])).symm
    · exact (normalize_normalize (0, -phi, 1) (by
        show (0:ℝ) < 0 * 0 + -phi * -phi + 1 * 1
        nlinarith [mul_self_nonneg phi])).symm
    · exact (normalize_normalize (0, phi, -1) (by
        show (0:ℝ) < 0 * 0 + phi * phi + -1 * -1
        nlinarith [mul_self_nonneg phi])).symm
    · exact (normalize_normalize (0, phi, 1) (by
        show (0:ℝ) < 0 * 0 + phi * phi + 1 * 1
        nlinarith [mul_self_nonneg phi])).symm

/-- Witness for `c8_amended` at `n = 0`. -/
theorem c8_amended_witness :
    ∃ m0, refineIter 0 icosahedron = some m0 ∧
      ({ icosahedron with
        vertex_data :=
          icosahedron.vertex_data.map
            (fun v => { v with position := normalize v.position }) } :
            Model VertexData InstanceData).vertex_data
        = m0.vertex_data.map (fun v => { v with position := normalize v.position }) ∧
      ({ icosahedron with
        vertex_data :=
          icosahedron.vertex_data.map
            (fun v => { v with position := normalize v.position }) } :
            Model VertexData InstanceData).index_data = m0.index_data :=
  c8_amended.1 0 _ rfl

set_option maxRecDepth 100000 in
/-- C8 counterexample: in `sphere(1)` the vertex at index 12 — the midpoint
vertex created for edge `(0, 9)` of the first icosahedron triangle — has as
its normal the *average* of the two endpoint normals (never renormalised,
since `sphere` rewrites only positions), and that average is not a unit
vector, while `normalize(position)` is; so `normal ≠ normalize(position)`
there, refuting the claim for refined spheres. -/
theorem c8_counterexample :
    ¬ (∀ n m, sphere n = some m → ∀ v ∈ m.vertex_data, v.normal = normalize v.position) := by
  intro hcl
  obtain ⟨m, hm⟩ : ∃ m, sphere 1 = some m := by
    cases hs : sphere 1 with
    | some mm => exact ⟨mm, rfl⟩
    | none =>
      have hiss : (sphere 1).isSome = true := by rfl
      rw [hs] at hiss
      exact Bool.noConfusion hiss
  have hbind : (sphere 1).bind (fun mm => mm.vertex_data.get? 12) = some
      { position :=
          normalize (VertexData.midpoint darkgreen_front_top purple_top_right).position
        normal := (VertexData.midpoint darkgreen_front_top purple_top_right).normal } := by
    rfl
  rw [hm] at hbind
  have hb2 : m.vertex_data.get? 12 = some
      { position :=
          normalize (VertexData.midpoint darkgreen_front_top purple_top_right).position
        normal := (VertexData.midpoint darkgreen_front_top purple_top_right).normal } := hbind
  have hmem := List.get?_mem hb2
  have heq := hcl 1 m hm _ hmem
  have heq' : (VertexData.midpoint darkgreen_front_top purple_top_right).normal
      = normalize (normalize
          (VertexData.midpoint darkgreen_front_top purple_top_right).position) := heq
  have hQpos : (0 : ℝ)
      < normSq (VertexData.midpoint darkgreen_front_top purple_top_right).position := by
    show (0 : ℝ) < 0.5 * (phi + 0) * (0.5 * (phi + 0))
        + 0.5 * (-1 + -phi) * (0.5 * (-1 + -phi))
        + 0.5 * (0 + 1) * (0.5 * (0 + 1))
    nlinarith [mul_self_nonneg (phi + 0), mul_self_nonneg (-1 + -phi)]
  have hunit : normSq (normalize (normalize
      (VertexData.midpoint darkgreen_front_top purple_top_right).position)) = 1 := by
    have ha := normSq_normalize _ hQpos
    exact normSq_normalize _ (by rw [ha]; norm_num)
  have hnn : normSq (VertexData.midpoint darkgreen_front_top purple_top_right).normal
      = 1 := by
    rw [heq']
    exact hunit
  have hexp : normSq (VertexData.midpoint darkgreen_front_top purple_top_right).normal
      = 0.5 * (phi / Real.sqrt (phi * phi + -1 * -1 + 0 * 0)
            + 0 / Real.sqrt (0 * 0 + -phi * -phi + 1 * 1))
          * (0.5 * (phi / Real.sqrt (phi * phi + -1 * -1 + 0 * 0)
            + 0 / Real.sqrt (0 * 0 + -phi * -phi + 1 * 1)))
        + 0.5 * (-1 / Real.sqrt (phi * phi + -1 * -1 + 0 * 0)
            + -phi / Real.sqrt (0 * 0 + -phi * -phi + 1 * 1))
          * (0.5 * (-1 / Real.sqrt (phi * phi + -1 * -1 + 0 * 0)
            + -phi / Real.sqrt (0 * 0 + -phi * -phi + 1 * 1)))
        + 0.5 * (0 / Real.sqrt (phi * phi + -1 * -1 + 0 * 0)
            + 1 / Real.sqrt (0 * 0 + -phi * -phi + 1 * 1))
          * (0.5 * (0 / Real.sqrt (phi * phi + -1 * -1 + 0 * 0)
            + 1 / Real.sqrt (0 * 0 + -phi * -phi + 1 * 1))) := rfl
  have hL9 : Real.sqrt (0 * 0 + -phi * -phi + 1 * 1)
      = Real.sqrt (phi * phi + -1 * -1 + 0 * 0) := by
    rw [show (0 * 0 + -phi * -phi + 1 * 1 : ℝ) = phi * phi + -1 * -1 + 0 * 0 from by ring]
  rw [hexp, hL9] at hnn
  rw [show (phi * phi + -1 * -1 + 0 * 0 : ℝ) = phi * phi + 1 from by ring] at hnn
  have hpos1 : (0 : ℝ) < phi * phi + 1 := by nlinarith [mul_self_nonneg phi]
  have hms : Real.sqrt (phi * phi + 1) * Real.sqrt (phi * phi + 1) = phi * phi + 1 :=
    Real.mul_self_sqrt hpos1.le
  have hne1 : (phi * phi + 1 : ℝ) ≠ 0 := ne_of_gt hpos1
  field_simp at hnn
  nlinarith [hnn, sq_nonneg (2 * phi - 1)]

end SphereNormals

section Draw

/-- C9 counterexample: the `otherwise` branch of the claim fails when the
index buffer is absent — with vertex and instance buffers present and
`first_invisible = 1`, `draw` does not record the four commands (it panics
unwrapping the absent index buffer) even though the no-op gate does not
apply. -/
theorem c9_counterexample :
    ¬ (∀ (m : Model Unit Nat) (vb ib : Buffer),
        m.vertex_buffer = some vb → m.instance_buffer = some ib →
        0 < m.first_invisible →
        ∃ b, m.draw = some
          [Cmd.bindVertexBuffers 0 [vb.buffer] [0],
           Cmd.bindIndexBuffer b 0 IndexType.uint32,
           Cmd.bindVertexBuffers 1 [ib.buffer] [0],
           Cmd.drawIndexed m.index_data.length m.first_invisible 0 0 0]) := by
  intro hcl
  obtain ⟨b, hb⟩ := hcl drawNoIdx ⟨0, 0, 0, 0⟩ ⟨1, 0, 0, 0⟩ rfl rfl (by decide)
  rw [show drawNoIdx.draw = none from rfl] at hb
  exact Option.noConfusion hb

/-- C9 (amended): `draw` records no commands when `first_invisible == 0` or
when the vertex or instance buffer is absent; when all three buffers are
present and `first_invisible > 0` it records, in order, the vertex-buffer
bind at slot 0, the 32-bit index-buffer bind, the instance-buffer bind at
slot 1, and an indexed draw with `index_count = |index_data|`,
`instance_count = first_invisible` and all offsets zero.  (When the index
buffer alone is absent it panics instead; see C10.) -/
theorem c9_amended {V I : Type} (m : Model V I) :
    ((m.first_invisible = 0 ∨ m.vertex_buffer = none ∨ m.instance_buffer = none) →
      m.draw = some []) ∧
    (∀ vb ib idxb, m.vertex_buffer = some vb → m.instance_buffer = some ib →
      m.index_buffer = some idxb → 0 < m.first_invisible →
      m.draw = some
        [Cmd.bindVertexBuffers 0 [vb.buffer] [0],
         Cmd.bindIndexBuffer idxb.buffer 0 IndexType.uint32,
         Cmd.bindVertexBuffers 1 [ib.buffer] [0],
         Cmd.drawIndexed m.index_data.length m.first_invisible 0 0 0]) := by
  constructor
  · intro hgate
    rcases hvb : m.vertex_buffer with _ | vb
    · simp only [Model.draw, hvb]
    · rcases hib : m.instance_buffer with _ | ib
      · simp only [Model.draw, hvb, hib]
      · rcases hgate with h0 | hnone | hnone
        · simp only [Model.draw, hvb, hib, h0, lt_irrefl, if_false]
        · rw [hvb] at hnone
          exact Option.noConfusion hnone
        · rw [hib] at hnone
          exact Option.noConfusion hnone
  · intro vb ib idxb hvb hib hidx hfi
    simp only [Model.draw, hvb, hib, hidx, if_pos hfi]

/-- Witness for `c9_amended`: the gate on the empty model, and the full
command list on a model with all three buffers and one visible instance. -/
theorem c9_amended_witness :
    (emptyModel Unit Nat).draw = some [] ∧
    drawAll.draw = some
      [Cmd.bindVertexBuffers 0 [0] [0],
       Cmd.bindIndexBuffer 2 0 IndexType.uint32,
       Cmd.bindVertexBuffers 1 [1] [0],
       Cmd.drawIndexed 0 1 0 0 0] :=
  ⟨(c9_amended (emptyModel Unit Nat)).1 (Or.inl rfl),
   (c9_amended drawAll).2 ⟨0, 0, 0, 0⟩ ⟨1, 0, 0, 0⟩ ⟨2, 0, 0, 0⟩ rfl rfl rfl (by decide)⟩

/-- C10: the draw gating does not cover the index buffer — when the vertex
and instance buffers are present and `first_invisible > 0` but the index
buffer is `None` (e.g. `update_index_buffer` was never called), `draw`
panics on `self.index_buffer.as_ref().unwrap()` instead of being a no-op or
returning an error. -/
theorem c10_draw_unwrap_panic {V I : Type} (m : Model V I) (vb ib : Buffer)
    (hvb : m.vertex_buffer = some vb) (hib : m.instance_buffer = some ib)
    (hidx : m.index_buffer = none) (hfi : 0 < m.first_invisible) :
    m.draw = none := by
  simp only [Model.draw, hvb, hib, hidx, if_pos hfi]

/-- Witness for `c10_draw_unwrap_panic` at the concrete model with both
other buffers present and one visible instance. -/
theorem c10_draw_unwrap_panic_witness : drawNoIdx.draw = none :=
  c10_draw_unwrap_panic drawNoIdx ⟨0, 0, 0, 0⟩ ⟨1, 0, 0, 0⟩ rfl rfl rfl (by decide)

end Draw

end Krakatoa
